import Mathlib

/-!
Verification of the confium error-handling boundary (src/lib.rs).

The Rust source is shallowly embedded: Rust strings are lists of
characters, the u8 arithmetic is Nat with explicit 255 bounds mirroring
the checked operations, fallible functions return Except, and the
observable effects of the C-callable entry point (status code and the
writes through its out-pointers) are recorded in an explicit structure.
The boundary accessor functions that manipulate heap boxes are modelled
twice: at value level (for a single live error) and on an explicit heap
of boxes addressed by naturals (for the ownership questions around
cfm_err_get_source and cfm_err_destroy).
-/

set_option maxRecDepth 8000

namespace Confium

/-- Model of std::backtrace::Backtrace: an opaque snapshot captured at
construction time. The capture is modelled as an opaque token and its
Display rendering as a fixed text, since its content is outside the
repository. -/
structure Backtrace where
  snapshot : Nat
deriving DecidableEq

/-- Model of Backtrace::capture(). -/
def Backtrace.capture : Backtrace := ⟨0⟩

/-- Model of the Display rendering bt.to_string() used by
cfm_err_get_backtrace. -/
def Backtrace.render (_ : Backtrace) : String := "backtrace"

/-- struct ErrorCommon from src/lib.rs, parametrised by the type standing
for Box of Error: the Error tree itself at value level, a heap address at
heap level. -/
structure ErrorCommonOf (ε : Type) where
  source : Option ε
  backtrace : Option Backtrace
deriving DecidableEq

/-- enum Error from src/lib.rs. -/
inductive Error where
  | NullPointer (common : ErrorCommonOf Error)
  | InvalidFormat (common : ErrorCommonOf Error)
  | InvalidHexDigit (common : ErrorCommonOf Error) (ch : Char)
  | Overflow (common : ErrorCommonOf Error)
  | InvalidUTF8 (common : ErrorCommonOf Error)

/-- ErrorCommon whose source field is Option of boxed Error. -/
abbrev ErrorCommon := ErrorCommonOf Error

/-- char::to_digit(16) from the Rust standard library. -/
def toDigit16 (c : Char) : Option Nat :=
  if '0' ≤ c ∧ c ≤ '9' then some (c.toNat - '0'.toNat)
  else if 'a' ≤ c ∧ c ≤ 'f' then some (c.toNat - 'a'.toNat + 10)
  else if 'A' ≤ c ∧ c ≤ 'F' then some (c.toNat - 'A'.toNat + 10)
  else none

/-- u8::checked_mul: the 8-bit checked multiply, on Nat with an explicit
255 bound. -/
def u8CheckedMul (a b : Nat) : Option Nat :=
  if a * b ≤ 255 then some (a * b) else none

/-- u8::checked_add: the 8-bit checked add. -/
def u8CheckedAdd (a b : Nat) : Option Nat :=
  if a + b ≤ 255 then some (a + b) else none

/-- str trim_start_matches with pattern "0x": removes every leading
occurrence of the marker, repeatedly. -/
def trimStartMatches0x : List Char → List Char
  | [] => []
  | [c] => [c]
  | c1 :: c2 :: rest =>
    if c1 = '0' ∧ c2 = 'x' then trimStartMatches0x rest else c1 :: c2 :: rest

/-- The character loop of fn parsehex over the trimmed text, carrying the
u8 accumulator named result in the source. -/
def parsehexLoop : List Char → Nat → Except Error Nat
  | [], result => .ok result
  | ch :: rest, result =>
    match toDigit16 ch with
    | none => .error (.InvalidHexDigit ⟨none, some Backtrace.capture⟩ ch)
    | some x =>
      match u8CheckedMul result 16 with
      | none => .error (.Overflow ⟨none, some Backtrace.capture⟩)
      | some r1 =>
        match u8CheckedAdd r1 x with
        | none => .error (.Overflow ⟨none, some Backtrace.capture⟩)
        | some r2 => parsehexLoop rest r2

/-- fn parsehex from src/lib.rs; the str argument is modelled as its
character list. The emptiness check precedes the prefix trimming, exactly
as in the source. -/
def parsehex (s : List Char) : Except Error Nat :=
  if s.isEmpty then .error (.InvalidFormat ⟨none, some Backtrace.capture⟩)
  else parsehexLoop (trimStartMatches0x s) 0

/-- fn error_code from src/lib.rs. -/
def error_code : Error → Nat
  | .NullPointer _ => 1
  | .InvalidFormat _ => 2
  | .InvalidHexDigit _ _ => 3
  | .Overflow _ => 4
  | .InvalidUTF8 _ => 5

/-- fn error_message from src/lib.rs; the format of the InvalidHexDigit
arm appends the offending character. -/
def error_message : Error → String
  | .NullPointer _ => "Null pointer"
  | .InvalidFormat _ => "Invalid format"
  | .InvalidHexDigit _ ch => "Invalid hex digit: ".push ch
  | .InvalidUTF8 _ => "Invalid UTF-8"
  | .Overflow _ => "Overflow"

/-- fn error_backtrace from src/lib.rs. -/
def error_backtrace : Error → Option Backtrace
  | .NullPointer c => c.backtrace
  | .InvalidFormat c => c.backtrace
  | .InvalidHexDigit c _ => c.backtrace
  | .InvalidUTF8 c => c.backtrace
  | .Overflow c => c.backtrace

/-- fn error_source from src/lib.rs. -/
def error_source : Error → Option Error
  | .NullPointer c => c.source
  | .InvalidFormat c => c.source
  | .InvalidHexDigit c _ => c.source
  | .InvalidUTF8 c => c.source
  | .Overflow c => c.source

/-- A const c_char pointer argument as seen through the FFI read
CStr::from_ptr followed by to_str: a null pointer, a non-null pointer to
bytes that are not valid UTF-8, or a non-null pointer decoding to the
given text. -/
inductive CStr where
  | null
  | invalidUtf8
  | valid (s : List Char)

/-- fn cstring from src/lib.rs. -/
def cstring : CStr → Except Error (List Char)
  | .null => .error (.NullPointer ⟨none, some Backtrace.capture⟩)
  | .invalidUtf8 => .error (.InvalidUTF8 ⟨none, some Backtrace.capture⟩)
  | .valid s => .ok s

/-- Observable effects of one parse_hex call: the returned status and the
writes performed through the out-pointers. nullErrWrite records a write
attempted through a null err pointer, which is undefined behaviour on the
C side. -/
structure FfiOut where
  status : Nat
  resultWrite : Option Nat
  errWrite : Option Error
  nullErrWrite : Option Error

/-- macro handle_err from src/lib.rs: returns the error code, boxing the
error through err only when err is non-null; otherwise the error value is
dropped at scope end. -/
def handle_err (e : Error) (errNull : Bool) : FfiOut :=
  { status := error_code e
    resultWrite := none
    errWrite := if errNull then none else some e
    nullErrWrite := none }

/-- macro non_null from src/lib.rs, in the case where the checked
parameter is null: constructs a NullPointer error and writes its box
through err unconditionally, with no null check on err. -/
def non_null_failed (errNull : Bool) : FfiOut :=
  let e : Error := .NullPointer ⟨none, some Backtrace.capture⟩
  { status := error_code e
    resultWrite := none
    errWrite := if errNull then none else some e
    nullErrWrite := if errNull then some e else none }

/-- extern fn parse_hex from src/lib.rs; the two Bools say whether the
result and err out-pointers are null. -/
def parse_hex (s : CStr) (resultNull errNull : Bool) : FfiOut :=
  if resultNull then non_null_failed errNull
  else
    match cstring s with
    | .error e => handle_err e errNull
    | .ok str =>
      match parsehex str with
      | .ok value =>
        { status := 0, resultWrite := some value
          errWrite := none, nullErrWrite := none }
      | .error e => handle_err e errNull

/-- Whether a string contains an interior NUL character, the condition
under which CString::new fails. -/
def hasNul (s : String) : Bool := s.data.any (fun c => c = Char.ofNat 0)

/-- CString::new from the Rust standard library. -/
def cstringNew (s : String) : Option String :=
  if hasNul s then none else some s

/-- extern fn cfm_err_get_msg on a live error: some (status, message
written) on normal return; none models the abort path taken when the
message has an interior NUL. -/
def cfm_err_get_msg (e : Error) : Option (Nat × String) :=
  (cstringNew (error_message e)).map (fun s => (0, s))

/-- extern fn cfm_err_get_backtrace on a live error: the inner option is
the pointer written (none for null); the outer none models the abort
path. -/
def cfm_err_get_backtrace (e : Error) : Option (Nat × Option String) :=
  match error_backtrace e with
  | none => some (0, none)
  | some bt =>
    match cstringNew bt.render with
    | some s => some (0, some s)
    | none => none

/-- Heap view of ErrorCommon: the boxed source is a heap address. -/
abbrev HErrorCommon := ErrorCommonOf Nat

/-- Heap view of enum Error, one node per heap box; the source field of
its common part holds the address of the cause box, if any. -/
inductive HError where
  | NullPointer (common : HErrorCommon)
  | InvalidFormat (common : HErrorCommon)
  | InvalidHexDigit (common : HErrorCommon) (ch : Char)
  | Overflow (common : HErrorCommon)
  | InvalidUTF8 (common : HErrorCommon)
deriving DecidableEq

/-- fn error_code on the heap view. -/
def herror_code : HError → Nat
  | .NullPointer _ => 1
  | .InvalidFormat _ => 2
  | .InvalidHexDigit _ _ => 3
  | .Overflow _ => 4
  | .InvalidUTF8 _ => 5

/-- fn error_source on the heap view. -/
def herror_source : HError → Option Nat
  | .NullPointer c => c.source
  | .InvalidFormat c => c.source
  | .InvalidHexDigit c _ => c.source
  | .InvalidUTF8 c => c.source
  | .Overflow c => c.source

/-- The heap of live error boxes, addressed by naturals. -/
abbrev Heap := List (Nat × HError)

/-- extern fn cfm_err_get_code on a heap handle: dereferences the handle,
writes the code, leaves the heap unchanged; none models the undefined
behaviour of dereferencing a dangling handle. -/
def cfm_err_get_code (h : Heap) (a : Nat) : Option (Heap × Nat) :=
  (h.lookup a).map (fun n => (h, herror_code n))

/-- extern fn cfm_err_get_source: writes the stored cause address (null
when there is none) and leaves the parent box untouched, exactly as the
source reads the field by reference and exposes the stored box. -/
def cfm_err_get_source (h : Heap) (a : Nat) : Option (Heap × Option Nat) :=
  (h.lookup a).map (fun n => (h, herror_source n))

/-- The addresses freed when the box at an address is dropped: the box
itself and, transitively, its owned source chain; fuelled recursion. -/
def dropChain (h : Heap) : Nat → Nat → List Nat
  | 0, _ => []
  | fuel + 1, a =>
    match h.lookup a with
    | none => [a]
    | some n =>
      match herror_source n with
      | none => [a]
      | some s => a :: dropChain h fuel s

/-- extern fn cfm_err_destroy: Box::from_raw and drop, transitively
freeing the owned source chain. -/
def cfm_err_destroy (h : Heap) (a : Nat) : Heap :=
  h.filter (fun p => !((dropChain h (h.length + 1) a).contains p.1))

/-- Lean form of the stripping discipline claimed in the spec, for
comparison with trimStartMatches0x: at most one leading marker removed. -/
def stripMarkerOnce : List Char → List Char
  | [] => []
  | [c] => [c]
  | c1 :: c2 :: rest =>
    if c1 = '0' ∧ c2 = 'x' then rest else c1 :: c2 :: rest

/-- The value denoted by a hex digit string read left to right, starting
from an accumulator. -/
def hexValFrom (acc : Nat) (l : List Char) : Nat :=
  l.foldl (fun a c => a * 16 + (toDigit16 c).getD 0) acc

/-- The value denoted by a hex digit string. -/
def hexVal (l : List Char) : Nat := hexValFrom 0 l

end Confium

namespace Confium

theorem hexValFrom_cons (acc : Nat) (c : Char) (l : List Char) :
    hexValFrom acc (c :: l) = hexValFrom (acc * 16 + (toDigit16 c).getD 0) l := rfl

theorem le_hexValFrom (l : List Char) : ∀ acc : Nat, acc ≤ hexValFrom acc l := by
  induction l with
  | nil => intro acc; exact Nat.le_refl acc
  | cons c rest ih =>
    intro acc
    have h1 : acc * 1 ≤ acc * 16 := Nat.mul_le_mul (Nat.le_refl acc) (by decide)
    have h2 : acc ≤ acc * 16 + (toDigit16 c).getD 0 := by omega
    exact Nat.le_trans h2 (ih _)

theorem parsehexLoop_ok (l : List Char) : ∀ acc : Nat,
    (∀ c ∈ l, (toDigit16 c).isSome = true) → hexValFrom acc l ≤ 255 →
    parsehexLoop l acc = .ok (hexValFrom acc l) := by
  induction l with
  | nil => intro acc _ _; rfl
  | cons c rest ih =>
    intro acc hdig hle
    obtain ⟨d, hd⟩ := Option.isSome_iff_exists.mp (hdig c (List.mem_cons_self c rest))
    rw [hexValFrom_cons, hd] at hle ⊢
    simp only [Option.getD_some] at hle ⊢
    have hstep : acc * 16 + d ≤ 255 := Nat.le_trans (le_hexValFrom rest _) hle
    have hm : acc * 16 ≤ 255 := by omega
    have hmul : u8CheckedMul acc 16 = some (acc * 16) := by
      unfold u8CheckedMul; rw [if_pos hm]
    have hadd : u8CheckedAdd (acc * 16) d = some (acc * 16 + d) := by
      unfold u8CheckedAdd; rw [if_pos hstep]
    have htail : ∀ x ∈ rest, (toDigit16 x).isSome = true :=
      fun x hx => hdig x (List.mem_cons_of_mem _ hx)
    simp only [parsehexLoop, hd, hmul, hadd]
    exact ih _ htail hle

end Confium

namespace Confium

theorem parsehexLoop_overflow (l : List Char) : ∀ acc : Nat,
    (∀ c ∈ l, (toDigit16 c).isSome = true) → acc ≤ 255 → 255 < hexValFrom acc l →
    parsehexLoop l acc = .error (.Overflow ⟨none, some Backtrace.capture⟩) := by
  induction l with
  | nil =>
    intro acc _ hacc hbig
    simp only [hexValFrom, List.foldl_nil] at hbig
    omega
  | cons c rest ih =>
    intro acc hdig hacc hbig
    obtain ⟨d, hd⟩ := Option.isSome_iff_exists.mp (hdig c (List.mem_cons_self c rest))
    rw [hexValFrom_cons, hd] at hbig
    simp only [Option.getD_some] at hbig
    by_cases hm : acc * 16 ≤ 255
    · by_cases ha : acc * 16 + d ≤ 255
      · have htail : ∀ x ∈ rest, (toDigit16 x).isSome = true :=
          fun x hx => hdig x (List.mem_cons_of_mem _ hx)
        have hrec := ih (acc * 16 + d) htail ha hbig
        simp only [parsehexLoop, hd, u8CheckedMul, if_pos hm, u8CheckedAdd, if_pos ha]
        exact hrec
      · simp only [parsehexLoop, hd, u8CheckedMul, if_pos hm, u8CheckedAdd, if_neg ha]
    · simp only [parsehexLoop, hd, u8CheckedMul, if_neg hm]

theorem parsehexLoop_invalidHexDigit (l : List Char) : ∀ (acc : Nat) (cm : ErrorCommon) (c : Char),
    parsehexLoop l acc = .error (.InvalidHexDigit cm c) →
    l.find? (fun x => (toDigit16 x).isNone) = some c ∧ cm = ⟨none, some Backtrace.capture⟩ := by
  induction l with
  | nil => intro acc cm c h; simp [parsehexLoop] at h
  | cons c0 rest ih =>
    intro acc cm c h
    cases hd : toDigit16 c0 with
    | none =>
      simp only [parsehexLoop, hd, Except.error.injEq] at h
      obtain ⟨hcm, hc⟩ := Error.InvalidHexDigit.inj h.symm
      refine ⟨?_, hcm⟩
      rw [List.find?_cons_of_pos]
      · rw [hc]
      · simp [hd]
    | some d =>
      by_cases hm : u8CheckedMul acc 16 ≠ none
      · obtain ⟨r1, hr1⟩ := Option.ne_none_iff_exists.mp hm
        by_cases ha : u8CheckedAdd r1 d ≠ none
        · obtain ⟨r2, hr2⟩ := Option.ne_none_iff_exists.mp ha
          simp only [parsehexLoop, hd, ← hr1, ← hr2] at h
          obtain ⟨hfind, hcm⟩ := ih r2 cm c h
          refine ⟨?_, hcm⟩
          rw [List.find?_cons_of_neg]
          · exact hfind
          · simp [hd]
        · rw [not_ne_iff] at ha
          simp only [parsehexLoop, hd, ← hr1, ha, Except.error.injEq] at h
          exact absurd h.symm (by simp)
      · rw [not_ne_iff] at hm
        simp only [parsehexLoop, hd, hm, Except.error.injEq] at h
        exact absurd h.symm (by simp)

end Confium

namespace Confium

theorem parsehexLoop_error_common (l : List Char) : ∀ (acc : Nat) (e : Error),
    parsehexLoop l acc = .error e →
    error_source e = none ∧ (error_backtrace e).isSome = true := by
  induction l with
  | nil => intro acc e h; simp [parsehexLoop] at h
  | cons c0 rest ih =>
    intro acc e h
    cases hd : toDigit16 c0 with
    | none =>
      simp only [parsehexLoop, hd, Except.error.injEq] at h
      rw [← h]
      exact ⟨rfl, rfl⟩
    | some d =>
      cases hm : u8CheckedMul acc 16 with
      | none =>
        simp only [parsehexLoop, hd, hm, Except.error.injEq] at h
        rw [← h]
        exact ⟨rfl, rfl⟩
      | some r1 =>
        cases ha : u8CheckedAdd r1 d with
        | none =>
          simp only [parsehexLoop, hd, hm, ha, Except.error.injEq] at h
          rw [← h]
          exact ⟨rfl, rfl⟩
        | some r2 =>
          simp only [parsehexLoop, hd, hm, ha] at h
          exact ih r2 e h

theorem parsehex_error_common (s : List Char) (e : Error) (h : parsehex s = .error e) :
    error_source e = none ∧ (error_backtrace e).isSome = true := by
  unfold parsehex at h
  by_cases hs : s.isEmpty
  · rw [if_pos hs] at h
    simp only [Except.error.injEq] at h
    rw [← h]
    exact ⟨rfl, rfl⟩
  · rw [if_neg hs] at h
    exact parsehexLoop_error_common _ _ _ h

theorem cstring_error_common (x : CStr) (e : Error) (h : cstring x = .error e) :
    error_source e = none ∧ (error_backtrace e).isSome = true := by
  cases x with
  | null => simp only [cstring, Except.error.injEq] at h; rw [← h]; exact ⟨rfl, rfl⟩
  | invalidUtf8 => simp only [cstring, Except.error.injEq] at h; rw [← h]; exact ⟨rfl, rfl⟩
  | valid s => simp [cstring] at h

theorem trim0x_not_marker (l : List Char) (h : ∀ rest, l ≠ '0' :: 'x' :: rest) :
    trimStartMatches0x l = l := by
  match l with
  | [] => rfl
  | [c] => rfl
  | c1 :: c2 :: rest =>
    have hne : ¬(c1 = '0' ∧ c2 = 'x') := by
      rintro ⟨h1, h2⟩
      exact h rest (by rw [h1, h2])
    simp only [trimStartMatches0x, if_neg hne]

theorem trim0x_cons (l : List Char) :
    trimStartMatches0x ('0' :: 'x' :: l) = trimStartMatches0x l := by
  simp [trimStartMatches0x]

theorem trim0x_hexdigits (l : List Char) (h : ∀ c ∈ l, (toDigit16 c).isSome = true) :
    trimStartMatches0x l = l := by
  apply trim0x_not_marker
  intro rest hrest
  have hx : 'x' ∈ l := by rw [hrest]; exact List.mem_cons_of_mem _ (List.mem_cons_self _ _)
  have := h 'x' hx
  simp [toDigit16] at this

end Confium

namespace Confium

/-- C4: for every non-null, valid-UTF-8 input consisting of an optional
"0x" marker followed by one or more hex digits whose value fits the 8-bit
target width, parse_hex returns status 0 and writes the exact numerically
equal value through the result out-parameter. -/
theorem parse_hex_success (mark digits : List Char) (en : Bool)
    (hm : mark = [] ∨ mark = ['0', 'x'])
    (hne : digits ≠ [])
    (hdig : ∀ c ∈ digits, (toDigit16 c).isSome = true)
    (hfit : hexVal digits ≤ 255) :
    parse_hex (.valid (mark ++ digits)) false en =
      { status := 0, resultWrite := some (hexVal digits)
        errWrite := none, nullErrWrite := none } := by
  have hpe : parsehex (mark ++ digits) = .ok (hexVal digits) := by
    unfold parsehex
    have hemp : (mark ++ digits).isEmpty = false := by
      cases hmd : mark ++ digits with
      | nil => exact absurd (List.append_eq_nil.mp hmd).2 hne
      | cons a l => rfl
    rw [hemp, if_neg Bool.false_ne_true]
    have htrim : trimStartMatches0x (mark ++ digits) = digits := by
      rcases hm with h | h
      · rw [h, List.nil_append]
        exact trim0x_hexdigits digits hdig
      · rw [h]
        show trimStartMatches0x ('0' :: 'x' :: digits) = digits
        rw [trim0x_cons]
        exact trim0x_hexdigits digits hdig
    rw [htrim]
    exact parsehexLoop_ok digits 0 hdig hfit
  have hstep : parse_hex (.valid (mark ++ digits)) false en =
      (match parsehex (mark ++ digits) with
       | .ok value =>
         { status := 0, resultWrite := some value
           errWrite := none, nullErrWrite := none }
       | .error e => handle_err e en : FfiOut) := rfl
  rw [hstep, hpe]

/-- C4 witness: parse_hex on "0x1a" succeeds with value 26. -/
theorem parse_hex_success_witness :
    parse_hex (.valid (['0', 'x'] ++ ['1', 'a'])) false false =
      { status := 0, resultWrite := some 26
        errWrite := none, nullErrWrite := none } :=
  parse_hex_success ['0', 'x'] ['1', 'a'] false (Or.inr rfl) (by decide) (by decide) (by decide)

/-- C6: for every digit-wise valid hex input whose accumulated value
exceeds the 8-bit target width, parse_hex fails with Overflow (code 4);
the accumulation is checked at each multiply and each add on exact
naturals, so no wraparound occurs. -/
theorem parse_hex_overflow (s : List Char)
    (hdig : ∀ c ∈ trimStartMatches0x s, (toDigit16 c).isSome = true)
    (hbig : 255 < hexVal (trimStartMatches0x s)) :
    parse_hex (.valid s) false false =
      { status := 4, resultWrite := none
        errWrite := some (.Overflow ⟨none, some Backtrace.capture⟩)
        nullErrWrite := none } := by
  have hne : s ≠ [] := by
    intro h
    rw [h] at hbig
    exact absurd hbig (by decide)
  have hemp : s.isEmpty = false := by
    cases s with
    | nil => exact absurd rfl hne
    | cons a l => rfl
  have hpe : parsehex s = .error (.Overflow ⟨none, some Backtrace.capture⟩) := by
    unfold parsehex
    rw [hemp, if_neg Bool.false_ne_true]
    exact parsehexLoop_overflow _ 0 hdig (by omega) hbig
  have hstep : parse_hex (.valid s) false false =
      (match parsehex s with
       | .ok value =>
         { status := 0, resultWrite := some value
           errWrite := none, nullErrWrite := none }
       | .error e => handle_err e false : FfiOut) := rfl
  rw [hstep, hpe]
  rfl

/-- C6 witness: parse_hex on "256" fails with Overflow, code 4. -/
theorem parse_hex_overflow_witness :
    parse_hex (.valid ['2', '5', '6']) false false =
      { status := 4, resultWrite := none
        errWrite := some (.Overflow ⟨none, some Backtrace.capture⟩)
        nullErrWrite := none } :=
  parse_hex_overflow ['2', '5', '6'] (by decide) (by decide)

end Confium

namespace Confium

/-- C3 counterexample: the claim predicts InvalidFormat (code 2) for the
input "0x", but parse_hex returns status 0 and writes the value 0,
because the emptiness check in parsehex runs before the marker is
stripped. -/
theorem parse_hex_0x_counterexample :
    (parse_hex (.valid ['0', 'x']) false false).status = 0
    ∧ (parse_hex (.valid ['0', 'x']) false false).status ≠ 2
    ∧ (parse_hex (.valid ['0', 'x']) false false).resultWrite = some 0 :=
  ⟨rfl, by decide, rfl⟩

/-- The scan loop only ever fails with InvalidHexDigit (code 3) or
Overflow (code 4), never with InvalidFormat. -/
theorem parsehexLoop_error_code (l : List Char) : ∀ (acc : Nat) (e : Error),
    parsehexLoop l acc = .error e → error_code e = 3 ∨ error_code e = 4 := by
  induction l with
  | nil => intro acc e h; simp [parsehexLoop] at h
  | cons c0 rest ih =>
    intro acc e h
    cases hd : toDigit16 c0 with
    | none =>
      simp only [parsehexLoop, hd, Except.error.injEq] at h
      rw [← h]
      exact Or.inl rfl
    | some d =>
      cases hm : u8CheckedMul acc 16 with
      | none =>
        simp only [parsehexLoop, hd, hm, Except.error.injEq] at h
        rw [← h]
        exact Or.inr rfl
      | some r1 =>
        cases ha : u8CheckedAdd r1 d with
        | none =>
          simp only [parsehexLoop, hd, hm, ha, Except.error.injEq] at h
          rw [← h]
          exact Or.inr rfl
        | some r2 =>
          simp only [parsehexLoop, hd, hm, ha] at h
          exact ih r2 e h

/-- C3 amended: only the fully empty text fails with InvalidFormat
(code 2) — status 2 forces the input to be empty; every non-empty input
that becomes empty only after stripping the marker, in particular "0x"
itself, instead succeeds with status 0 and value 0; and the empty input
does return code 2 with an InvalidFormat error. -/
theorem parse_hex_empty_invalid_format (s : List Char) :
    ((parse_hex (.valid s) false false).status = 2 → s = [])
    ∧ (s ≠ [] → trimStartMatches0x s = [] →
        parse_hex (.valid s) false false =
          { status := 0, resultWrite := some 0
            errWrite := none, nullErrWrite := none })
    ∧ parse_hex (.valid []) false false =
      { status := 2, resultWrite := none
        errWrite := some (.InvalidFormat ⟨none, some Backtrace.capture⟩)
        nullErrWrite := none }
    ∧ parse_hex (.valid ['0', 'x']) false false =
      { status := 0, resultWrite := some 0
        errWrite := none, nullErrWrite := none } := by
  refine ⟨?_, ?_, rfl, rfl⟩
  · intro hstat
    by_contra hne
    have hemp : s.isEmpty = false := by
      cases s with
      | nil => exact absurd rfl hne
      | cons a l => rfl
    have hpe : parsehex s = parsehexLoop (trimStartMatches0x s) 0 := by
      unfold parsehex
      rw [hemp, if_neg Bool.false_ne_true]
    have hstep : parse_hex (.valid s) false false =
        (match parsehex s with
         | .ok value =>
           { status := 0, resultWrite := some value
             errWrite := none, nullErrWrite := none }
         | .error e => handle_err e false : FfiOut) := rfl
    cases hp : parsehexLoop (trimStartMatches0x s) 0 with
    | ok v =>
      rw [hstep, hpe, hp] at hstat
      simp at hstat
    | error e =>
      rw [hstep, hpe, hp] at hstat
      have hcode : error_code e = 2 := hstat
      rcases parsehexLoop_error_code _ 0 e hp with h3 | h4
      · omega
      · omega
  · intro hne htrim
    have hemp : s.isEmpty = false := by
      cases s with
      | nil => exact absurd rfl hne
      | cons a l => rfl
    have hpe : parsehex s = .ok 0 := by
      unfold parsehex
      rw [hemp, if_neg Bool.false_ne_true, htrim]
      rfl
    have hstep : parse_hex (.valid s) false false =
        (match parsehex s with
         | .ok value =>
           { status := 0, resultWrite := some value
             errWrite := none, nullErrWrite := none }
         | .error e => handle_err e false : FfiOut) := rfl
    rw [hstep, hpe]

/-- C3 amended witness: "0x0x" trims to the empty digit string and
succeeds with status 0 and value 0. -/
theorem parse_hex_empty_invalid_format_witness :
    parse_hex (.valid ['0', 'x', '0', 'x']) false false =
      { status := 0, resultWrite := some 0
        errWrite := none, nullErrWrite := none } :=
  (parse_hex_empty_invalid_format ['0', 'x', '0', 'x']).2.1 (by decide) rfl

/-- C5 counterexample: on "0x0x1" the code strips both leading markers
and succeeds with value 1, while the claimed strip-at-most-once
discipline would scan "0x1" and fail on the character x. -/
theorem strip_marker_counterexample :
    parsehex ['0', 'x', '0', 'x', '1'] = .ok 1
    ∧ parsehexLoop (stripMarkerOnce ['0', 'x', '0', 'x', '1']) 0 =
        .error (.InvalidHexDigit ⟨none, some Backtrace.capture⟩ 'x')
    ∧ parsehex ['0', 'x', '0', 'x', '1'] ≠
        parsehexLoop (stripMarkerOnce ['0', 'x', '0', 'x', '1']) 0 := by
  refine ⟨rfl, rfl, ?_⟩
  intro hcontra
  have h1 : parsehex ['0', 'x', '0', 'x', '1'] = .ok 1 := rfl
  have h2 : parsehexLoop (stripMarkerOnce ['0', 'x', '0', 'x', '1']) 0 =
      .error (.InvalidHexDigit ⟨none, some Backtrace.capture⟩ 'x') := rfl
  rw [h1, h2] at hcontra
  exact Except.noConfusion hcontra

/-- C5 amended: for every non-empty input, parse scanning runs on the
text with every leading repetition of the "0x" marker removed; a list
that does not start with the marker is left unchanged, and each leading
marker occurrence is stripped in turn. -/
theorem trim_strips_all_markers (s : List Char) (hne : s ≠ []) :
    parsehex s = parsehexLoop (trimStartMatches0x s) 0
    ∧ (∀ l : List Char, trimStartMatches0x ('0' :: 'x' :: l) = trimStartMatches0x l)
    ∧ (∀ l : List Char, (∀ rest, l ≠ '0' :: 'x' :: rest) → trimStartMatches0x l = l) := by
  refine ⟨?_, trim0x_cons, trim0x_not_marker⟩
  have hemp : s.isEmpty = false := by
    cases s with
    | nil => exact absurd rfl hne
    | cons a l => rfl
  unfold parsehex
  rw [hemp, if_neg Bool.false_ne_true]

/-- C5 amended witness: on "0x0x1" the scan runs on the doubly trimmed
text. -/
theorem trim_strips_all_markers_witness :
    parsehex ['0', 'x', '0', 'x', '1'] =
      parsehexLoop (trimStartMatches0x ['0', 'x', '0', 'x', '1']) 0 :=
  (trim_strips_all_markers ['0', 'x', '0', 'x', '1'] (by decide)).1

/-- C7: a null text pointer and a null result-out pointer each fail with
NullPointer (code 1), and the result-out check precedes any text
handling: with a null result-out pointer the status is 1 for every text
argument, even a null or invalid-UTF-8 one. -/
theorem parse_hex_null_checks :
    (∀ en : Bool, (parse_hex .null false en).status = 1)
    ∧ (∀ (s : CStr) (en : Bool), (parse_hex s true en).status = 1)
    ∧ (parse_hex .null true true).status = 1
    ∧ (parse_hex .invalidUtf8 true true).status = 1 :=
  ⟨fun _ => rfl, fun _ _ => rfl, rfl, rfl⟩

/-- C2 evaluation: when the result-out pointer is null and the err
out-pointer is also null, the non_null check writes the freshly built
NullPointer error through the null err pointer (undefined behaviour)
while still returning code 1; by contrast a parse failure reached through
handle_err with a null err pointer performs no such write. -/
theorem parse_hex_null_errptr_write :
    (parse_hex (.valid ['1']) true true).nullErrWrite
      = some (.NullPointer ⟨none, some Backtrace.capture⟩)
    ∧ (parse_hex (.valid ['1']) true true).status = 1
    ∧ (parse_hex (.valid ['g']) false true).nullErrWrite = none
    ∧ (parse_hex (.valid ['g']) false true).status = 3 :=
  ⟨rfl, rfl, rfl, rfl⟩

/-- C1 evaluation: on a heap holding a parent error box at address 1
whose cause is the box at address 2, cfm_err_get_source hands out
address 2 while leaving the parent (and its stored cause) untouched, and
cfm_err_destroy on the parent then frees address 2 as well — the handle
that was given out, so neither the relinquish nor the duplicate
discipline holds. -/
theorem get_source_double_ownership :
    cfm_err_get_source
        [(1, HError.InvalidFormat ⟨some 2, some Backtrace.capture⟩),
         (2, HError.Overflow ⟨none, some Backtrace.capture⟩)] 1
      = some ([(1, HError.InvalidFormat ⟨some 2, some Backtrace.capture⟩),
               (2, HError.Overflow ⟨none, some Backtrace.capture⟩)], some 2)
    ∧ (cfm_err_destroy
        [(1, HError.InvalidFormat ⟨some 2, some Backtrace.capture⟩),
         (2, HError.Overflow ⟨none, some Backtrace.capture⟩)] 1).lookup 2 = none :=
  ⟨rfl, rfl⟩

end Confium

namespace Confium

/-- C8: error_code is total on the closed variant set, independent of the
payload, with exactly the mapping NullPointer 1, InvalidFormat 2,
InvalidHexDigit 3, Overflow 4, InvalidUTF8 5; and a second
cfm_err_get_code call on the same live handle writes the same value,
since the first call leaves the heap unchanged. -/
theorem error_code_spec :
    (∀ cm : ErrorCommon, error_code (.NullPointer cm) = 1)
    ∧ (∀ cm : ErrorCommon, error_code (.InvalidFormat cm) = 2)
    ∧ (∀ (cm : ErrorCommon) (c : Char), error_code (.InvalidHexDigit cm c) = 3)
    ∧ (∀ cm : ErrorCommon, error_code (.Overflow cm) = 4)
    ∧ (∀ cm : ErrorCommon, error_code (.InvalidUTF8 cm) = 5)
    ∧ (∀ (h : Heap) (a : Nat) (h1 : Heap) (c1 : Nat),
        cfm_err_get_code h a = some (h1, c1) →
        cfm_err_get_code h1 a = some (h1, c1)) := by
  refine ⟨fun _ => rfl, fun _ => rfl, fun _ _ => rfl, fun _ => rfl, fun _ => rfl, ?_⟩
  intro h a h1 c1 hcall
  unfold cfm_err_get_code at hcall ⊢
  cases hl : h.lookup a with
  | none => rw [hl] at hcall; simp at hcall
  | some n =>
    rw [hl] at hcall
    simp only [Option.map_some', Option.some.injEq, Prod.mk.injEq] at hcall
    obtain ⟨hh, hc⟩ := hcall
    subst hh
    rw [hl]
    simp [hc]

/-- C8 witness: querying the code of a live Overflow handle a second time
still writes 4 on the unchanged heap. -/
theorem error_code_spec_witness :
    cfm_err_get_code [(1, HError.Overflow ⟨none, some Backtrace.capture⟩)] 1
      = some ([(1, HError.Overflow ⟨none, some Backtrace.capture⟩)], 4) :=
  error_code_spec.2.2.2.2.2 [(1, HError.Overflow ⟨none, some Backtrace.capture⟩)] 1
    [(1, HError.Overflow ⟨none, some Backtrace.capture⟩)] 4 rfl

/-- C9: when parsehex fails with InvalidHexDigit carrying a character,
that character is the first non-hex character of the scanned (trimmed)
text and the message includes it; every other variant yields its fixed
string literal; and cfm_err_get_msg writes a non-null buffer for every
variant whose message has no interior NUL, which holds for every
character a C string can carry. -/
theorem error_message_spec (s : List Char) (cm : ErrorCommon) (c : Char)
    (h : parsehex s = .error (.InvalidHexDigit cm c)) :
    (trimStartMatches0x s).find? (fun x => (toDigit16 x).isNone) = some c
    ∧ error_message (.InvalidHexDigit cm c) = "Invalid hex digit: ".push c
    ∧ (∀ cm2 : ErrorCommon, error_message (.NullPointer cm2) = "Null pointer")
    ∧ (∀ cm2 : ErrorCommon, error_message (.InvalidFormat cm2) = "Invalid format")
    ∧ (∀ cm2 : ErrorCommon, error_message (.Overflow cm2) = "Overflow")
    ∧ (∀ cm2 : ErrorCommon, error_message (.InvalidUTF8 cm2) = "Invalid UTF-8")
    ∧ (∀ e : Error, (∀ (cm2 : ErrorCommon) (c2 : Char),
          e = .InvalidHexDigit cm2 c2 → c2 ≠ Char.ofNat 0) →
        ∃ m : String, cfm_err_get_msg e = some (0, m)) := by
  refine ⟨?_, rfl, fun _ => rfl, fun _ => rfl, fun _ => rfl, fun _ => rfl, ?_⟩
  · unfold parsehex at h
    by_cases hs : s.isEmpty = true
    · rw [if_pos hs] at h
      simp at h
    · rw [if_neg hs] at h
      exact (parsehexLoop_invalidHexDigit _ 0 cm c h).1
  · intro e he
    cases e with
    | NullPointer cm2 => exact ⟨"Null pointer", rfl⟩
    | InvalidFormat cm2 => exact ⟨"Invalid format", rfl⟩
    | Overflow cm2 => exact ⟨"Overflow", rfl⟩
    | InvalidUTF8 cm2 => exact ⟨"Invalid UTF-8", rfl⟩
    | InvalidHexDigit cm2 c2 =>
      have hc2 : c2 ≠ Char.ofNat 0 := he cm2 c2 rfl
      have hdec : (decide (c2 = Char.ofNat 0)) = false := decide_eq_false hc2
      have hnul : hasNul ("Invalid hex digit: ".push c2) = false := by
        unfold hasNul
        have hdata : ("Invalid hex digit: ".push c2).data =
            "Invalid hex digit: ".data ++ [c2] := rfl
        rw [hdata, List.any_append]
        have h1 : "Invalid hex digit: ".data.any (fun x => decide (x = Char.ofNat 0)) = false := by
          decide
        rw [h1]
        simp [hdec]
      refine ⟨"Invalid hex digit: ".push c2, ?_⟩
      have hmsg : error_message (.InvalidHexDigit cm2 c2) = "Invalid hex digit: ".push c2 := rfl
      unfold cfm_err_get_msg
      rw [hmsg]
      unfold cstringNew
      rw [hnul, if_neg Bool.false_ne_true]
      rfl

/-- C9 witness: parsing "1g" fails on g, the first non-hex character of
the scanned text. -/
theorem error_message_spec_witness :
    (trimStartMatches0x ['1', 'g']).find? (fun x => (toDigit16 x).isNone) = some 'g' :=
  (error_message_spec ['1', 'g'] ⟨none, some Backtrace.capture⟩ 'g' rfl).1

/-- C10: every Error built by the fallible helpers (cstring, parsehex)
and by the boundary checks of parse_hex carries cause none and a captured
backtrace; consequently cfm_err_get_source writes a null handle for a box
whose source field is empty, and cfm_err_get_backtrace writes a non-null
buffer whenever a backtrace is present. -/
theorem fresh_error_invariant :
    (∀ (x : CStr) (e : Error), cstring x = .error e →
        error_source e = none ∧ (error_backtrace e).isSome = true)
    ∧ (∀ (s : List Char) (e : Error), parsehex s = .error e →
        error_source e = none ∧ (error_backtrace e).isSome = true)
    ∧ (∀ (s : CStr) (rn en : Bool) (e : Error),
        (parse_hex s rn en).errWrite = some e ∨ (parse_hex s rn en).nullErrWrite = some e →
        error_source e = none ∧ (error_backtrace e).isSome = true)
    ∧ (∀ (h : Heap) (a : Nat) (n : HError), h.lookup a = some n →
        herror_source n = none → cfm_err_get_source h a = some (h, none))
    ∧ (∀ e : Error, (error_backtrace e).isSome = true →
        ∃ m : String, cfm_err_get_backtrace e = some (0, some m)) := by
  refine ⟨cstring_error_common, parsehex_error_common, ?_, ?_, ?_⟩
  · intro s rn en e h
    cases rn with
    | true =>
      cases en with
      | true =>
        simp [parse_hex, non_null_failed] at h
        subst h
        exact ⟨rfl, rfl⟩
      | false =>
        simp [parse_hex, non_null_failed] at h
        subst h
        exact ⟨rfl, rfl⟩
    | false =>
      cases hx : cstring s with
      | error e0 =>
        have hcom := cstring_error_common s e0 hx
        cases en with
        | true => simp [parse_hex, hx, handle_err] at h
        | false =>
          simp [parse_hex, hx, handle_err] at h
          subst h
          exact hcom
      | ok str =>
        cases hp : parsehex str with
        | ok v => simp [parse_hex, hx, hp] at h
        | error e0 =>
          have hcom := parsehex_error_common str e0 hp
          cases en with
          | true => simp [parse_hex, hx, hp, handle_err] at h
          | false =>
            simp [parse_hex, hx, hp, handle_err] at h
            subst h
            exact hcom
  · intro h a n hl hs
    unfold cfm_err_get_source
    rw [hl]
    simp [Option.map_some', hs]
  · intro e hbt
    cases hb : error_backtrace e with
    | none => rw [hb] at hbt; exact absurd hbt (by decide)
    | some bt =>
      refine ⟨"backtrace", ?_⟩
      unfold cfm_err_get_backtrace
      rw [hb]
      rfl

/-- C10 witness: the error parsehex produces on "g" has no cause and a
captured backtrace. -/
theorem fresh_error_invariant_witness :
    error_source (Error.InvalidHexDigit ⟨none, some Backtrace.capture⟩ 'g') = none
    ∧ (error_backtrace (Error.InvalidHexDigit ⟨none, some Backtrace.capture⟩ 'g')).isSome = true :=
  fresh_error_invariant.2.1 ['g'] (Error.InvalidHexDigit ⟨none, some Backtrace.capture⟩ 'g') rfl

end Confium
